import Mathlib

/-!
Verification of the retrieval and answer-selection pipeline of the
quiz-gpt repository.  The JavaScript sources are shallowly embedded as
executable Lean definitions:

* string-level helpers mirror the JavaScript string primitives used by the
  code (`substring`, `includes`, `split`, `trim`, case mapping);
* `Quiz.Rag` embeds the dense-retrieval path of `api/analyze-v4-rag.js`
  and the identical copy inside `api/analyze-enhanced.js`
  (`searchKnowledge`, the hardened `analyzeQuestionWithRAG`, the
  confidence banding of the handler);
* `Quiz.Enhanced` embeds the lexical path of `api/analyze-enhanced.js`
  (`searchWithIndex`, `extractImportantSentences`,
  `enhanceWithNearbyContext`, `optimizedSearch`, the handler's context
  assembly and accuracy computation);
* `Quiz.Opt` embeds the lexical scoring of the `searchForAnswers` variant;
* `Quiz.Retry` embeds `callClaudeWithRetry`.

External calls (fetch, embeddings, vector queries, chat completions) are
modelled as explicit outcome values supplied as inputs; `Math.random`
draws are explicit rational parameters in `[0,1)`.
-/

attribute [local semireducible] Rat.add Rat.mul Rat.inv Rat.sub Rat.ofScientific

namespace Quiz

/-- JavaScript `s.substring(0, n)`: the first `n` characters of `s`. -/
def jsSubstring (s : String) (n : Nat) : String := ⟨s.data.take n⟩

/-- JavaScript `s.toLowerCase()` (character-wise ASCII case mapping). -/
def jsToLower (s : String) : String := ⟨s.data.map Char.toLower⟩

/-- JavaScript `s.toUpperCase()` (character-wise ASCII case mapping). -/
def jsToUpper (s : String) : String := ⟨s.data.map Char.toUpper⟩

/-- JavaScript `s.trim()`: strip leading and trailing whitespace. -/
def jsTrim (s : String) : String :=
  ⟨(((s.data.dropWhile Char.isWhitespace).reverse.dropWhile
      Char.isWhitespace).reverse)⟩

/-- Accumulator pass of `jsSplitSpace`. -/
def splitSpaceAux : List Char → List Char → List String
  | acc, [] => [⟨acc.reverse⟩]
  | acc, c :: rest =>
    if c == ' ' then (⟨acc.reverse⟩ : String) :: splitSpaceAux [] rest
    else splitSpaceAux (c :: acc) rest

/-- JavaScript `s.split(' ')`: split at every single space, keeping
empty fields. -/
def jsSplitSpace (s : String) : List String := splitSpaceAux [] s.data

/-- JavaScript `list.join(sep)`. -/
def jsJoin (sep : String) : List String → String
  | [] => ""
  | [x] => x
  | x :: y :: rest => x ++ sep ++ jsJoin sep (y :: rest)

/-- Character-list version of "starts with": `isPrefixCh needle hay` is
true when `needle` is an initial segment of `hay`. -/
def isPrefixCh : List Char → List Char → Bool
  | [], _ => true
  | _ :: _, [] => false
  | a :: as, b :: bs => a == b && isPrefixCh as bs

/-- Predicate `hasSubList needle hay`: `needle` occurs contiguously inside `hay`. -/
def hasSubList (needle : List Char) : List Char → Bool
  | [] => needle.isEmpty
  | c :: rest => isPrefixCh needle (c :: rest) || hasSubList needle rest

/-- JavaScript `hay.includes(needle)`. -/
def jsIncludes (hay needle : String) : Bool := hasSubList needle.data hay.data

/-- Collapse every run of whitespace into a single space (the effect of
the JavaScript `replace(/\s+/g, ' ')`).  The boolean records whether the
previous character was whitespace. -/
def collapseWsAux : Bool → List Char → List Char
  | _, [] => []
  | prevWs, c :: rest =>
    if c.isWhitespace then
      if prevWs then collapseWsAux true rest
      else ' ' :: collapseWsAux true rest
    else c :: collapseWsAux false rest

def collapseWs (l : List Char) : List Char := collapseWsAux false l

/-- A character kept by the JavaScript filter `[^\w\sàèéìòù]` →
removed: everything that is not `\w` (ASCII alphanumeric or `_`), not
whitespace and not one of the listed accented vowels. -/
def isWordChar (c : Char) : Bool :=
  c.isAlphanum || c == '_' || c == 'à' || c == 'è' || c == 'é' ||
  c == 'ì' || c == 'ò' || c == 'ù'

/-- Embedding of `preprocessText` from the sources: lowercase, collapse whitespace,
drop characters outside `[\w\sàèéìòù]`, trim. -/
def preprocessText (s : String) : String :=
  jsTrim (String.mk ((collapseWs (s.data.map Char.toLower)).filter
    (fun c => isWordChar c || c == ' ')))

/-- Deduplication keeping the first occurrence (JavaScript
`[...new Set(list)]`). -/
def dedupAux (seen : List String) : List String → List String
  | [] => []
  | x :: rest =>
    if seen.contains x then dedupAux seen rest
    else x :: dedupAux (x :: seen) rest

def dedupKeepFirst (l : List String) : List String := dedupAux [] l

/-- Sentence terminator characters of the regex `[^.!?]+[.!?]+`. -/
def isTerm (c : Char) : Bool := c == '.' || c == '!' || c == '?'

/-- All matches of the global regex `[^.!?]+[.!?]+` over a character
list: maximal runs of non-terminators followed by a maximal nonempty run
of terminators. -/
def sentencesAux : Nat → List Char → List (List Char)
  | 0, _ => []
  | _ + 1, [] => []
  | fuel + 1, c :: rest =>
    if isTerm c then sentencesAux fuel rest
    else
      let body := (c :: rest).takeWhile (fun x => !isTerm x)
      let after := (c :: rest).dropWhile (fun x => !isTerm x)
      let terms := after.takeWhile isTerm
      let rest2 := after.dropWhile isTerm
      if terms.isEmpty then [] else (body ++ terms) :: sentencesAux fuel rest2

/-- JavaScript `text.match(/[^.!?]+[.!?]+/g) || []` as a list of
sentence strings.  The fuel `l.length + 1` dominates the number of
steps, each of which consumes at least one character. -/
def sentencesOf (text : String) : List String :=
  (sentencesAux (text.data.length + 1) text.data).map String.mk

/-- First character in `[ABCD]` of a string, i.e. the JavaScript
`answer.match(/[ABCD]/)` on an upper-cased string. -/
def firstABCD (s : String) : Option Char :=
  s.data.find? (fun c => c == 'A' || c == 'B' || c == 'C' || c == 'D')

/-- A quiz question as produced by the extraction step: number, text,
and the `options` object as an association list in insertion order
(keys `A`–`D`). -/
structure Question where
  number : Nat
  text : String
  options : List (Char × String)
deriving Repr, DecidableEq

instance : Inhabited Question := ⟨⟨0, "", []⟩⟩

/-- JavaScript `Object.values(question.options)`. -/
def optionValues (q : Question) : List String := q.options.map Prod.snd

/-- JavaScript `Object.values(question.options).join(' ').toLowerCase()`. -/
def optionsTextOf (q : Question) : String :=
  jsToLower (jsJoin " " (optionValues q))

/-- Descending-by-score comparison used by the various
`sort((a, b) => b.score - a.score)` calls. -/
def byScoreDesc {α : Type} (score : α → ℚ) (a b : α) : Prop :=
  score b ≤ score a

instance {α : Type} (f : α → ℚ) : IsTotal α (byScoreDesc f) :=
  ⟨fun a b => le_total (f b) (f a)⟩

instance {α : Type} (f : α → ℚ) : IsTrans α (byScoreDesc f) :=
  ⟨fun _ _ _ h1 h2 => le_trans h2 h1⟩

instance {α : Type} (f : α → ℚ) : DecidableRel (byScoreDesc f) :=
  fun a b => inferInstanceAs (Decidable (f b ≤ f a))

end Quiz

namespace Quiz.Rag

/-- A match returned by the Pinecone similarity query: a score and the
optional `metadata.text` field (`none` models missing metadata or a
missing `text` key). -/
structure VMatch where
  score : ℚ
  text : Option String
deriving Repr, DecidableEq

/-- JavaScript `m.metadata?.text || ''`. -/
def vText (m : VMatch) : String := m.text.getD ""

/-- The primary context of `searchKnowledge`: texts of the matches with
score above `0.35`, empty texts dropped, joined with a blank line. -/
def searchContext (matches' : List VMatch) : String :=
  jsJoin "\n\n"
    (((matches'.filter (fun m => decide ((0.35 : ℚ) < m.score))).map vText).filter
      (fun t => decide (0 < t.length)))

/-- The fallback context of `searchKnowledge`: texts of the first three
raw matches regardless of score, empty texts dropped. -/
def fallbackContext (matches' : List VMatch) : String :=
  jsJoin "\n\n"
    (((matches'.take 3).map vText).filter (fun t => decide (0 < t.length)))

/-- The pure tail of `searchKnowledge` once the similarity query has
returned its match list. -/
def searchKnowledgeResult (matches' : List VMatch) : String :=
  let context := searchContext matches'
  if context = "" ∧ 0 < matches'.length then fallbackContext matches'
  else context

/-- Outcome of an awaited external call: the promise rejected
(`throws`) or resolved with a value. -/
inductive CallOutcome (α : Type) where
  | throws
  | ok (val : α)
deriving Repr

/-- Embedding of `searchKnowledge` with its failure handling: the embedding call may
throw or produce a response with no vector (`ok none`), and the
similarity query may throw; every failure is caught and yields the
empty context.  `emb` is the outcome of
`openaiClient.embeddings.create` reduced to its optional vector, and
`query` is the outcome of `pineconeIndex.query` as a function of that
vector. -/
def searchKnowledge (emb : CallOutcome (Option (List ℚ)))
    (query : List ℚ → CallOutcome (List VMatch)) : String :=
  match emb with
  | .throws => ""
  | .ok none => ""
  | .ok (some v) =>
    match query v with
    | .throws => ""
    | .ok results => searchKnowledgeResult results

/-- Outcome of the `openaiClient.chat.completions.create` call inside
`analyzeQuestionWithRAG`: the call threw, or resolved with the optional
`choices[0].message.content` string. -/
inductive LMOutcome where
  | throws
  | ok (content : Option String)
deriving Repr

/-- The grounded prompt built when the context is informative
(`context.length > 50`). -/
def ragPromptWithContext (q : Question) (context : String) : String :=
  "Basandoti sul seguente contesto del corso, rispondi alla domanda.\n\nCONTESTO:\n"
    ++ jsSubstring context 2000
    ++ "\n\nDOMANDA: " ++ q.text ++ "\nOPZIONI:\n"
    ++ jsJoin "\n" (q.options.map (fun p => String.singleton p.1 ++ ": " ++ p.2))
    ++ "\n\nAnalizza il contesto e scegli la risposta più appropriata."

/-- The reasoning-only prompt built when no informative context was
retrieved. -/
def ragPromptNoContext (q : Question) : String :=
  "Questa è una domanda di quiz universitario multidisciplinare.\n\nDOMANDA: "
    ++ q.text ++ "\nOPZIONI:\n"
    ++ jsJoin "\n" (q.options.map (fun p => String.singleton p.1 ++ ": " ++ p.2))
    ++ "\n\nusa il ragionamento logico per identificare la risposta più probabile."

/-- The hardened `analyzeQuestionWithRAG` of `api/analyze-enhanced.js`
(lines 670–742).  The language-model call is the input `lm`; `coin`
models the `Math.random() > 0.5` draw of the final heuristic.  The
answer string is `content?.trim().toUpperCase() || 'B'`; the first
`[ABCD]` character wins; otherwise the marker-phrase heuristic fires,
and a thrown call is caught and answered with `'B'`. -/
def analyzeQuestionWithRAG (q : Question) (context : String) (lm : LMOutcome)
    (coin : Bool) : Char :=
  match lm with
  | .throws => 'B'
  | .ok content =>
    let _prompt :=
      if 50 < context.length then ragPromptWithContext q context
      else ragPromptNoContext q
    let answer :=
      match content with
      | none => "B"
      | some s => let t := jsToUpper (jsTrim s); if t = "" then "B" else t
    match firstABCD answer with
    | some c => c
    | none =>
      let optionsText := optionsTextOf q
      if jsIncludes optionsText "tutte le precedenti" ||
         jsIncludes optionsText "tutte le risposte" then 'D'
      else if jsIncludes optionsText "nessuna delle precedenti" then 'D'
      else if coin then 'B' else 'C'

/-- The confidence computation of the v4 handler (lines 935–943):
banded by context length, with a `Math.floor(Math.random() * k)`
jitter; `r` is the random draw in `[0,1)`.  An empty context is falsy
in JavaScript, and its length is `0 ≤ 100`, so the length conditions
alone are faithful. -/
def confidenceV4 (contextLen : Nat) (r : ℚ) : ℤ :=
  if 500 < contextLen then 85 + ⌊r * 10⌋
  else if 100 < contextLen then 70 + ⌊r * 15⌋
  else 50 + ⌊r * 20⌋

end Quiz.Rag

namespace Quiz.Enhanced

/-- The `CONFIG` of `api/analyze-enhanced.js`. -/
def chunksToLoad : Nat := 300
def chunksPerQuestion : Nat := 3
def maxKeywordsPerQuestion : Nat := 8
def minScoreThreshold : ℚ := 20
def contextWindow : Nat := 2

/-- A corpus chunk as consumed by the lexical pipeline. -/
structure ChunkE where
  text : String
  page : Nat
deriving Repr, DecidableEq

/-- Record `{...chunks[id], score}`: a chunk with the accumulated inverted-index
score attached. -/
structure ScoredChunk where
  text : String
  page : Nat
  score : ℚ
deriving Repr, DecidableEq

/-- One step of filling the `chunkScores` map: add 10 to the entry of
`id`, creating it at the end in first-touch order (JavaScript `Map`
iteration order is insertion order). -/
def bump (scores : List (Nat × ℚ)) (id : Nat) : List (Nat × ℚ) :=
  if scores.any (fun p => p.1 == id) then
    scores.map (fun p => if p.1 == id then (p.1, p.2 + 10) else p)
  else scores ++ [(id, 10)]

/-- Embedding of `searchWithIndex(keywords, index, chunks)`: accumulate 10 points per
keyword occurrence using the inverted index, sort descending by score,
keep the first 10, and attach the chunk data.  The index is the
inverted index as an association list `word → chunk ids` (ids in
insertion order, i.e. ascending); a missing word contributes nothing
(`index.get(keyword) || new Set()`).  An out-of-range id (impossible
for an index built from `chunks`) falls back to a default chunk. -/
def searchWithIndex (keywords : List String) (index : List (String × List Nat))
    (chunks : List ChunkE) : List ScoredChunk :=
  let chunkScores := keywords.foldl
    (fun acc kw => (((index.lookup kw).getD []).foldl bump acc)) []
  ((List.insertionSort (byScoreDesc Prod.snd) chunkScores).take 10).map
    (fun p => let c := chunks.getD p.1 ⟨"", 0⟩; ⟨c.text, c.page, p.2⟩)

/-- Embedding of `extractImportantSentences(text, question, idfScores, maxLength)` of
`api/analyze-enhanced.js` (lines 115–161).  `idfScores` is the cached
TF-IDF table viewed as a total lookup function
(`idfScores.get(word) || 0`). -/
def extractImportantSentences (text : String) (q : Question)
    (idfScores : String → ℚ) (maxLength : Nat := 250) : String :=
  let sentences := sentencesOf text
  if sentences.length = 0 then jsSubstring text maxLength
  else
    let questionWords :=
      (jsSplitSpace (preprocessText
        (q.text ++ " " ++ jsJoin " " (optionValues q)))).filter
        (fun w => 3 < w.length)
    let scoredSentences := sentences.map (fun sent =>
      let words := jsSplitSpace (preprocessText sent)
      let wordScore : ℚ := (words.map (fun w =>
        idfScores w + (if questionWords.contains w then 20 else 0))).sum
      let optionScore : ℚ := ((optionValues q).map (fun option =>
        if jsIncludes (jsToLower sent) (jsSubstring (jsToLower option) 20) then (50 : ℚ)
        else 0)).sum
      (jsTrim sent, wordScore + optionScore))
    let topSentences := jsJoin " "
      (((List.insertionSort (byScoreDesc Prod.snd) scoredSentences).take 2).map
        Prod.fst)
    jsSubstring topSentences maxLength

/-- A match record `{chunk, text, score, page}` produced by
`optimizedSearch`. -/
structure MatchE where
  chunk : ScoredChunk
  text : String
  score : ℚ
  page : Nat
deriving Repr, DecidableEq

/-- A per-question search result `{question, matches}`; the JavaScript
objects carry no `inferredFromContext` key until
`enhanceWithNearbyContext` sets it, which `false` models (the key is
read with falsy semantics). -/
structure RResultE where
  question : Question
  matches' : List MatchE
  inferredFromContext : Bool
deriving Repr, DecidableEq

instance : Inhabited RResultE := ⟨⟨default, [], false⟩⟩

/-- The neighbour indices visited by the window loop of
`enhanceWithNearbyContext`:
`max(0, idx-2) ≤ i ≤ min(len-1, idx+2)`, `i ≠ idx`, ascending. -/
def windowIdxs (len idx : Nat) : List Nat :=
  (List.range len).filter
    (fun i => decide (i ≠ idx) && decide (idx ≤ i + contextWindow) &&
      decide (i ≤ idx + contextWindow))

/-- The `nearbyMatches` collected for position `idx` from the current
state `s` of the result array: the first match of every nonempty
neighbour in the window (`slice(0, 1)`). -/
def nearbyMatchesOf (s : List RResultE) (idx : Nat) : List MatchE :=
  (windowIdxs s.length idx).flatMap (fun i => (s.getD i default).matches'.take 1)

/-- Processing of one position of the array by
`enhanceWithNearbyContext`: the map callback mutates the result objects
of the array it is iterating over, so each step reads the current state
and writes index `idx`. -/
def enhanceAt (s : List RResultE) (idx : Nat) : List RResultE :=
  let r := s.getD idx default
  if r.matches'.length = 0 then
    let nearby := nearbyMatchesOf s idx
    if nearby.length = 0 then s
    else s.set idx
      ⟨r.question,
       (List.insertionSort (byScoreDesc MatchE.score) nearby).take 2, true⟩
  else s

/-- Embedding of `enhanceWithNearbyContext(questions, searchResults)` (lines
163–192): the in-place mutating map, processed left to right.  The
`questions` argument is unused by the JavaScript body as well. -/
def enhanceWithNearbyContext (questions : List Question)
    (searchResults : List RResultE) : List RResultE :=
  let _ := questions
  (List.range searchResults.length).foldl enhanceAt searchResults

/-- Embedding of `extractKeywordsFromQuestion` of `api/analyze-enhanced.js` (lines
235–250): length- and stop-word-filtered question words plus up to two
long words per option, deduplicated, first 8. -/
def extractKeywordsFromQuestion (q : Question) : List String :=
  let text := preprocessText q.text
  let words := (jsSplitSpace text).filter (fun word =>
    3 < word.length &&
    !(["della", "delle", "sono", "quale", "quali", "come", "quando"].contains word))
  let words2 := words ++ (optionValues q).flatMap (fun option =>
    ((jsSplitSpace (preprocessText option)).filter (fun w => 4 < w.length)).take 2)
  (dedupKeepFirst words2).take maxKeywordsPerQuestion

/-- Embedding of `optimizedSearch(questions, chunks, searchIndex, idfScores)` (lines
195–233): inverted-index retrieval per question, TF-IDF sentence
refinement of the top `chunksPerQuestion` chunks, then the
nearby-context enhancement. -/
def optimizedSearch (questions : List Question) (chunks : List ChunkE)
    (searchIndex : List (String × List Nat)) (idfScores : String → ℚ) :
    List RResultE :=
  let results := questions.map (fun question =>
    let keywords := extractKeywordsFromQuestion question
    let relevantChunks := searchWithIndex keywords searchIndex chunks
    if relevantChunks.length = 0 then ⟨question, [], false⟩
    else
      ⟨question,
       (relevantChunks.take chunksPerQuestion).map (fun chunk =>
         ⟨chunk, extractImportantSentences chunk.text question idfScores 250,
          chunk.score, chunk.page⟩),
       false⟩)
  enhanceWithNearbyContext questions results

/-- STEP 4 of the handler (lines 449–460): the per-batch compressed
context, one line per question with matches, truncated to 2000
characters. -/
def contextPerQuestion (searchResults : List RResultE) : String :=
  jsSubstring
    (jsJoin "\n"
      ((searchResults.map (fun result =>
        match result.matches' with
        | [] => ""
        | m :: _ => "D" ++ toString result.question.number ++ ":" ++ m.text)).filter
        (fun c => decide (c ≠ ""))))
    2000

/-- JavaScript `result?.matches?.length > 0 && result.matches[0].score > 30` of the
handler (line 525). -/
def hasGoodMatchB (result : Option RResultE) : Bool :=
  match result with
  | none => false
  | some res =>
    match res.matches' with
    | [] => false
    | m :: _ => decide ((30 : ℚ) < m.score)

/-- JavaScript `result?.inferredFromContext` (line 526). -/
def isInferredB (result : Option RResultE) : Bool :=
  match result with
  | none => false
  | some res => res.inferredFromContext

/-- The accuracy computation of the handler (lines 524–530):
`hasGoodMatch ? 90 + rand(5) : isInferred ? 75 + rand(10) : 70 + rand(10)`
with `rand(k) = Math.floor(Math.random() * k)` and `r` the random draw
in `[0,1)`. -/
def accOf (result : Option RResultE) (r : ℚ) : ℤ :=
  if hasGoodMatchB result then 90 + ⌊r * 5⌋
  else if isInferredB result then 75 + ⌊r * 10⌋
  else 70 + ⌊r * 10⌋

end Quiz.Enhanced

namespace Quiz.Opt

/-- The `CONFIG` of the `searchForAnswers` variant. -/
def chunksPerQuestion : Nat := 2
def maxKeywordsPerQuestion : Nat := 8
def exactMatchBonus : ℚ := 50
def keywordMatchScore : ℚ := 10
def multiMatchBonus : ℚ := 20
def minScoreThreshold : ℚ := 30

/-- A corpus chunk. -/
structure Chunk where
  text : String
  page : Nat
deriving Repr, DecidableEq

/-- A match `{chunk, score, page}` pushed by `searchForAnswers`. -/
structure MatchL where
  chunk : Chunk
  score : ℚ
  page : Nat
deriving Repr, DecidableEq

/-- The static synonym table of the variant. -/
def synonyms : List (String × List String) :=
  [("acquisti", ["procurement", "approvvigionamento", "purchasing"]),
   ("rischio", ["risk", "pericolo", "minaccia"]),
   ("ottimizzazione", ["optimization", "ottimizzare", "ottimale"]),
   ("progetto", ["project", "iniziativa", "programma"]),
   ("fornitore", ["supplier", "vendor", "provider"]),
   ("strategico", ["strategic", "strategia", "critico"])]

/-- Embedding of `expandWithSynonyms(keywords)`: a set seeded with the keywords, then
every keyword's synonyms appended, in insertion order. -/
def expandWithSynonyms (keywords : List String) : List String :=
  dedupKeepFirst
    (keywords ++ keywords.flatMap (fun k => (synonyms.lookup k).getD []))

/-- Embedding of `extractKeywordsFromQuestion` of the variant: like the enhanced one
but with `dove` also stopped and one level of synonym expansion. -/
def extractKeywordsFromQuestion (q : Question) : List String :=
  let text := preprocessText q.text
  let words := (jsSplitSpace text).filter (fun word =>
    3 < word.length &&
    !(["della", "delle", "sono", "quale", "quali", "come", "quando",
       "dove"].contains word))
  let words2 := words ++ (optionValues q).flatMap (fun option =>
    ((jsSplitSpace (preprocessText option)).filter (fun w => 4 < w.length)).take 2)
  (expandWithSynonyms (dedupKeepFirst words2)).take maxKeywordsPerQuestion

/-- The per-chunk score of `searchForAnswers` (lines 272–306): keyword
hits (plus a spaced-occurrence bonus), exact or prefix option-text
bonuses, a multi-match bonus above three distinct keyword hits, and the
halving penalty for chunks shorter than 100 characters. -/
def scoreChunk (keywords : List String) (q : Question) (chunk : Chunk) : ℚ :=
  let text := preprocessText chunk.text
  let keywordPart : ℚ := (keywords.map (fun keyword =>
    if jsIncludes text keyword then
      keywordMatchScore + (if jsIncludes text (" " ++ keyword ++ " ") then 5 else 0)
    else 0)).sum
  let optionPart : ℚ := ((optionValues q).map (fun option =>
    let optionText := preprocessText option
    if jsIncludes text optionText then exactMatchBonus
    else if 10 < optionText.length && jsIncludes text (jsSubstring optionText 10) then
      exactMatchBonus / 2
    else 0)).sum
  let matchCount := (keywords.filter (fun k => jsIncludes text k)).length
  let multiPart : ℚ := if 3 < matchCount then (matchCount : ℚ) * multiMatchBonus else 0
  let score := keywordPart + optionPart + multiPart
  if chunk.text.length < 100 then score * (1 / 2) else score

/-- The match list built for one question by the `forEach` body of
`searchForAnswers` (lines 268–318): chunks whose score reaches
`minScoreThreshold`, sorted descending by score, first
`chunksPerQuestion` kept. -/
def questionMatches (q : Question) (chunks : List Chunk) : List MatchL :=
  let keywords := extractKeywordsFromQuestion q
  let ms := chunks.filterMap (fun chunk =>
    let score := scoreChunk keywords q chunk
    if minScoreThreshold ≤ score then some ⟨chunk, score, chunk.page⟩ else none)
  (List.insertionSort (byScoreDesc MatchL.score) ms).take chunksPerQuestion

/-- A cached answer produced by the regex cache `checkCache`. -/
structure Cached where
  answer : Char
  confidence : Nat
deriving Repr, DecidableEq

/-- A result row of `searchForAnswers`. -/
structure OptResult where
  question : Question
  matches' : List MatchL
  cachedAnswer : Option Cached
deriving Repr, DecidableEq

/-- Embedding of `searchForAnswers(questions, chunks)` (lines 251–334).  The
regex-driven `checkCache` lookup is abstracted as the oracle `cache`
(its patterns run through the JavaScript regex engine); a cache hit
short-circuits the search with an empty match list, exactly as in the
source. -/
def searchForAnswers (cache : Question → Option Cached)
    (questions : List Question) (chunks : List Chunk) : List OptResult :=
  questions.map (fun question =>
    match cache question with
    | some cached => ⟨question, [], some cached⟩
    | none => ⟨question, questionMatches question chunks, none⟩)

end Quiz.Opt

namespace Quiz.Retry

/-- Outcome of one `fetch` attempt inside `callClaudeWithRetry`: the
promise rejected, or resolved with a response of the given status. -/
inductive FetchOutcome where
  | throws
  | resp (status : Nat)
deriving Repr, DecidableEq

/-- The retry loop of `callClaudeWithRetry` (lines 15–33 of
`api/analyze-enhanced.js`) from attempt `i`:  a 429 response waits and
retries, any other response returns, a rejection rethrows on the last
attempt and otherwise waits and retries; falling off the loop end
resolves with `undefined`, modelled as `none`. -/
def callLoop (fetchSeq : Nat → FetchOutcome) (maxRetries : Nat) :
    Nat → Option (Except Unit Nat)
  | i =>
    if _h : i < maxRetries then
      match fetchSeq i with
      | .resp status =>
        if status = 429 then callLoop fetchSeq maxRetries (i + 1)
        else some (.ok status)
      | .throws =>
        if i = maxRetries - 1 then some (.error ())
        else callLoop fetchSeq maxRetries (i + 1)
    else none
termination_by i => maxRetries - i
decreasing_by all_goals omega

/-- Embedding of `callClaudeWithRetry(url, options, maxRetries)`: the sequence of
fetch outcomes is the oracle `fetchSeq`; the returned value is `none`
for `undefined`, `some (.error ())` for a rethrown error, and
`some (.ok status)` for a returned response. -/
def callClaudeWithRetry (fetchSeq : Nat → FetchOutcome)
    (maxRetries : Nat := 3) : Option (Except Unit Nat) :=
  callLoop fetchSeq maxRetries 0

end Quiz.Retry

namespace Quiz

/-! ## Helper lemmas -/

theorem firstABCD_mem {s : String} {c : Char} (h : firstABCD s = some c) :
    c ∈ (['A', 'B', 'C', 'D'] : List Char) := by
  have hp := List.find?_some h
  simp only [Bool.or_eq_true, beq_iff_eq] at hp
  rcases hp with ((h | h) | h) | h <;> subst h <;> simp

theorem jsSubstring_length_le (s : String) (n : Nat) :
    (jsSubstring s n).length ≤ n := by
  have : (jsSubstring s n).length = (s.data.take n).length := rfl
  rw [this]
  exact List.length_take_le n s.data

end Quiz

namespace Quiz

/-! ## C1 -/

/-- C1: for every question, every assembled context (including the empty
context), every language-model outcome (a thrown call, a response with
no content, or any response text, in particular one containing no A–D
letter) and every random draw, the hardened `analyzeQuestionWithRAG`
returns one of the characters A, B, C, D — never null, the empty
string, or N/A. -/
theorem c1_answer_selector_total (q : Question) (context : String)
    (lm : Rag.LMOutcome) (coin : Bool) :
    Rag.analyzeQuestionWithRAG q context lm coin ∈ (['A', 'B', 'C', 'D'] : List Char) := by
  cases lm with
  | throws => simp [Rag.analyzeQuestionWithRAG]
  | ok content =>
    simp only [Rag.analyzeQuestionWithRAG]
    split
    · next c h => exact firstABCD_mem h
    · split
      · simp
      · split
        · simp
        · split <;> simp

/-! ## C2 -/

/-- C2 counterexample: with the raw result list
`[{score 0.9, text ""}, {score 0.2, text "foo"}]`, the only match with
score above 0.35 has the empty text, so the concatenated text of
exactly the matches above the threshold is the empty string; yet
`searchKnowledge` returns "foo", the text of the below-threshold match,
because its empty-join test also fires when the above-threshold matches
all carry empty text.  This refutes the claim that the returned context
is always the concatenation of exactly the matches with score > 0.35. -/
theorem c2_counterexample_threshold :
    ([⟨9/10, some ""⟩, ⟨1/5, some "foo"⟩] : List Rag.VMatch).filter
        (fun m => decide ((0.35 : ℚ) < m.score)) = [⟨9/10, some ""⟩] ∧
    jsJoin "\n\n"
      ((([⟨9/10, some ""⟩, ⟨1/5, some "foo"⟩] : List Rag.VMatch).filter
        (fun m => decide ((0.35 : ℚ) < m.score))).map Rag.vText) = "" ∧
    Rag.searchKnowledgeResult [⟨9/10, some ""⟩, ⟨1/5, some "foo"⟩] = "foo" ∧
    ("foo" : String) ≠ "" := by
  refine ⟨?_, ?_, ?_, ?_⟩ <;> decide

/-- C2 (amended): `searchKnowledge` joins with a blank line the
non-empty texts of the matches with score above 0.35; whenever that
join is empty — in particular whenever no match clears 0.35 — and the
raw result list is non-empty, it returns the analogous join over the
top 3 raw results regardless of their scores. -/
theorem c2_amended_threshold_policy (ms : List Rag.VMatch) :
    (Rag.searchContext ms ≠ "" →
      Rag.searchKnowledgeResult ms = Rag.searchContext ms) ∧
    (Rag.searchContext ms = "" → ms ≠ [] →
      Rag.searchKnowledgeResult ms = Rag.fallbackContext ms) ∧
    ((∀ m ∈ ms, m.score ≤ 0.35) → ms ≠ [] →
      Rag.searchKnowledgeResult ms = Rag.fallbackContext ms) := by
  have hcase : ∀ h : Rag.searchContext ms = "", ms ≠ [] →
      Rag.searchKnowledgeResult ms = Rag.fallbackContext ms := by
    intro h hne
    unfold Rag.searchKnowledgeResult
    rw [if_pos ⟨h, List.length_pos.2 hne⟩]
  refine ⟨?_, hcase, ?_⟩
  · intro h
    unfold Rag.searchKnowledgeResult
    rw [if_neg (fun hc => h hc.1)]
  · intro hall hne
    apply hcase _ hne
    have hnil : ms.filter (fun m => decide ((0.35 : ℚ) < m.score)) = [] := by
      rw [List.filter_eq_nil_iff]
      intro m hm
      simpa using not_lt.2 (hall m hm)
    simp [Rag.searchContext, hnil, jsJoin]

/-- Witness for C2 (amended): a single sub-threshold match triggers the
top-3 fallback. -/
theorem c2_amended_witness :
    Rag.searchKnowledgeResult [⟨1/10, some "bar"⟩] =
      Rag.fallbackContext [⟨1/10, some "bar"⟩] :=
  (c2_amended_threshold_policy [⟨1/10, some "bar"⟩]).2.2
    (by decide) (by decide)

/-! ## C3 -/

/-- C3: if the embedding call throws or returns no vector, or the
similarity query throws, `searchKnowledge` returns the empty string.
The embedding is total (every failure is caught inside the function),
so no exception propagates to the answer selector or the batch level. -/
theorem c3_retrieval_failure_yields_empty_context
    (emb : Rag.CallOutcome (Option (List ℚ)))
    (query : List ℚ → Rag.CallOutcome (List Rag.VMatch))
    (h : emb = .throws ∨ emb = .ok none ∨
      ∃ v, emb = .ok (some v) ∧ query v = .throws) :
    Rag.searchKnowledge emb query = "" := by
  rcases h with h | h | ⟨v, h1, h2⟩
  · subst h; rfl
  · subst h; rfl
  · subst h1
    simp [Rag.searchKnowledge, h2]

/-- Witness for C3: a thrown embedding call (and, separately, a thrown
similarity query) produce the empty context. -/
theorem c3_witness :
    Rag.searchKnowledge .throws (fun _ => .ok []) = "" ∧
    Rag.searchKnowledge (.ok (some [1])) (fun _ => .throws) = "" :=
  ⟨c3_retrieval_failure_yields_empty_context _ _ (Or.inl rfl),
   c3_retrieval_failure_yields_empty_context _ _
     (Or.inr (Or.inr ⟨[1], rfl, rfl⟩))⟩

/-! ## C5 -/

/-- C5 counterexample: the question's option A (and only option A)
contains the marker phrase "tutte le precedenti", the model response
"??" contains no A–D letter, yet the fallback returns the fixed letter
D, not the key A of the option holding the phrase; and when the
language-model call throws, the function returns B without consulting
the options at all. -/
theorem c5_counterexample_fixed_letter :
    Rag.analyzeQuestionWithRAG
      ⟨1, "q", [('A', "tutte le precedenti"), ('B', "x"), ('C', "y"), ('D', "z")]⟩
      "" (.ok (some "??")) true = 'D' ∧
    (∀ p ∈ ([('A', "tutte le precedenti"), ('B', "x"), ('C', "y"), ('D', "z")] :
        List (Char × String)),
      jsIncludes (jsToLower p.2) "tutte le precedenti" = true → p.1 = 'A') ∧
    jsIncludes (jsToLower "tutte le precedenti") "tutte le precedenti" = true ∧
    ('D' : Char) ≠ 'A' ∧
    Rag.analyzeQuestionWithRAG
      ⟨1, "q", [('A', "tutte le precedenti"), ('B', "x"), ('C', "y"), ('D', "z")]⟩
      "" .throws true = 'B' := by
  refine ⟨?_, ?_, ?_, ?_, ?_⟩ <;> decide

/-- C5 (amended): when the response text contains no A–D character (and
is non-empty after trimming, so the `|| 'B'` default does not fire) and
some option's text contains "tutte le precedenti" or "nessuna delle
precedenti", the deterministic fallback returns the fixed letter D
regardless of which option holds the phrase; when the call itself
throws, the catch handler returns B. -/
theorem c5_amended_marker_phrase (q : Question) (context s : String) (coin : Bool)
    (hne : jsToUpper (jsTrim s) ≠ "")
    (hno : firstABCD (jsToUpper (jsTrim s)) = none)
    (hph : jsIncludes (optionsTextOf q) "tutte le precedenti" = true ∨
           jsIncludes (optionsTextOf q) "nessuna delle precedenti" = true) :
    Rag.analyzeQuestionWithRAG q context (.ok (some s)) coin = 'D' ∧
    Rag.analyzeQuestionWithRAG q context .throws coin = 'B' := by
  refine ⟨?_, rfl⟩
  simp only [Rag.analyzeQuestionWithRAG, if_neg hne, hno]
  by_cases h1 : (jsIncludes (optionsTextOf q) "tutte le precedenti" ||
      jsIncludes (optionsTextOf q) "tutte le risposte") = true
  · rw [if_pos h1]
  · rw [if_neg h1]
    rcases hph with hph | hph
    · exact absurd (by simp [hph]) h1
    · rw [if_pos hph]

/-! ## C4 -/

theorem floor_jitter_bounds (r : ℚ) (k : ℤ) (h0 : 0 ≤ r) (h1 : r < 1)
    (hk : 0 < k) : 0 ≤ ⌊r * (k : ℚ)⌋ ∧ ⌊r * (k : ℚ)⌋ < k := by
  refine ⟨Int.floor_nonneg.2 (mul_nonneg h0 (by exact_mod_cast hk.le)), ?_⟩
  rw [Int.floor_lt]
  have h := mul_lt_mul_of_pos_right h1 (show (0 : ℚ) < (k : ℚ) by exact_mod_cast hk)
  simpa using h

/-- C4 counterexample: in the lexical handler of `analyze-enhanced.js`,
a result tagged `inferredFromContext = true` whose borrowed match has
score 20 (not a good direct match) receives accuracy 75 at jitter 0 —
an integer outside the claimed band [50, 70]. -/
theorem c4_counterexample_inferred_band :
    Enhanced.accOf (some ⟨⟨1, "t", []⟩, [⟨⟨"", 0, 20⟩, "x", 20, 0⟩], true⟩) 0 = 75 ∧
    Enhanced.isInferredB (some ⟨⟨1, "t", []⟩, [⟨⟨"", 0, 20⟩, "x", 20, 0⟩], true⟩) = true ∧
    ¬ ((75 : ℤ) ≤ 70) := by
  refine ⟨?_, ?_, ?_⟩ <;> decide

/-- C4 (amended): in the dense (v4) handler the confidence is
`85 + ⌊r·10⌋ ∈ [85,94] ⊆ [85,95]` when the context length exceeds 500
and `50 + ⌊r·20⌋ ∈ [50,69] ⊆ [50,70]` when it is below 100; the
`inferredFromContext` tag exists only in the lexical handler, where an
inferred result without a good direct match (head score ≤ 30) receives
accuracy `75 + ⌊r·10⌋ ∈ [75,84]`, not a value in [50,70]. -/
theorem c4_amended_confidence_bands (len : Nat) (r : ℚ)
    (res : Enhanced.RResultE) (h0 : 0 ≤ r) (h1 : r < 1) :
    (500 < len → 85 ≤ Rag.confidenceV4 len r ∧ Rag.confidenceV4 len r ≤ 95) ∧
    (len < 100 → 50 ≤ Rag.confidenceV4 len r ∧ Rag.confidenceV4 len r ≤ 70) ∧
    (res.inferredFromContext = true → Enhanced.hasGoodMatchB (some res) = false →
      75 ≤ Enhanced.accOf (some res) r ∧ Enhanced.accOf (some res) r ≤ 84) := by
  have j10 := floor_jitter_bounds r 10 h0 h1 (by norm_num)
  have j20 := floor_jitter_bounds r 20 h0 h1 (by norm_num)
  have c10 : ((10 : ℤ) : ℚ) = (10 : ℚ) := by norm_num
  have c20 : ((20 : ℤ) : ℚ) = (20 : ℚ) := by norm_num
  rw [c10] at j10
  rw [c20] at j20
  refine ⟨?_, ?_, ?_⟩
  · intro h
    unfold Rag.confidenceV4
    rw [if_pos h]
    omega
  · intro h
    unfold Rag.confidenceV4
    rw [if_neg (by omega), if_neg (by omega)]
    omega
  · intro hinf hgood
    unfold Enhanced.accOf
    rw [hgood]
    simp only [Bool.false_eq_true, if_false]
    rw [if_pos (by simp [Enhanced.isInferredB, hinf])]
    omega

/-- Witness for C4 (amended): length 600, jitter draw 1/2 gives a
confidence of 90 inside [85, 95]. -/
theorem c4_amended_witness :
    85 ≤ Rag.confidenceV4 600 (1/2) ∧ Rag.confidenceV4 600 (1/2) ≤ 95 :=
  (c4_amended_confidence_bands 600 (1/2) ⟨⟨1, "t", []⟩, [], false⟩
    (by norm_num) (by norm_num)).1 (by norm_num)

/-! ## C6 -/

theorem sorted_take {α : Type} {r : α → α → Prop} {l : List α} (n : Nat)
    (h : List.Sorted r l) : List.Sorted r (l.take n) :=
  List.Pairwise.sublist (List.take_sublist n l) h

theorem questionMatches_props (q : Question) (chunks : List Opt.Chunk) :
    List.Sorted (byScoreDesc Opt.MatchL.score) (Opt.questionMatches q chunks) ∧
    (Opt.questionMatches q chunks).length ≤ Opt.chunksPerQuestion ∧
    (∀ m ∈ Opt.questionMatches q chunks, Opt.minScoreThreshold ≤ m.score) ∧
    ((∀ c ∈ chunks,
        Opt.scoreChunk (Opt.extractKeywordsFromQuestion q) q c <
          Opt.minScoreThreshold) →
      Opt.questionMatches q chunks = []) := by
  unfold Opt.questionMatches
  refine ⟨?_, ?_, ?_, ?_⟩
  · exact sorted_take _ (List.sorted_insertionSort _ _)
  · exact List.length_take_le _ _
  · intro m hm
    have hm2 : m ∈ List.insertionSort (byScoreDesc Opt.MatchL.score)
        (chunks.filterMap fun chunk =>
          if Opt.minScoreThreshold ≤ Opt.scoreChunk (Opt.extractKeywordsFromQuestion q) q chunk
          then some ⟨chunk, Opt.scoreChunk (Opt.extractKeywordsFromQuestion q) q chunk,
            chunk.page⟩
          else none) :=
      (List.take_sublist _ _).subset hm
    rw [List.mem_insertionSort] at hm2
    rw [List.mem_filterMap] at hm2
    obtain ⟨chunk, _, hsome⟩ := hm2
    by_cases hs : Opt.minScoreThreshold ≤
        Opt.scoreChunk (Opt.extractKeywordsFromQuestion q) q chunk
    · rw [if_pos hs] at hsome
      cases hsome
      exact hs
    · rw [if_neg hs] at hsome
      cases hsome
  · intro hall
    have hnil : (chunks.filterMap fun chunk =>
        if Opt.minScoreThreshold ≤ Opt.scoreChunk (Opt.extractKeywordsFromQuestion q) q chunk
        then some (⟨chunk, Opt.scoreChunk (Opt.extractKeywordsFromQuestion q) q chunk,
          chunk.page⟩ : Opt.MatchL)
        else none) = [] := by
      rw [List.filterMap_eq_nil_iff]
      intro c hc
      rw [if_neg (not_le.2 (hall c hc))]
    show (List.insertionSort (byScoreDesc Opt.MatchL.score)
      (chunks.filterMap fun chunk =>
        if Opt.minScoreThreshold ≤ Opt.scoreChunk (Opt.extractKeywordsFromQuestion q) q chunk
        then some (⟨chunk, Opt.scoreChunk (Opt.extractKeywordsFromQuestion q) q chunk,
          chunk.page⟩ : Opt.MatchL)
        else none)).take Opt.chunksPerQuestion = []
    rw [hnil]
    rfl

/-- C6 counterexample: `searchWithIndex` of `analyze-enhanced.js` never
applies the configured `minScoreThreshold` (20): a chunk containing a
single keyword scores 10 and is still returned, so not every returned
entry clears the configured minimum score threshold. -/
theorem c6_counterexample_no_threshold :
    Enhanced.searchWithIndex ["test"] [("test", [0])] [⟨"corto", 3⟩] =
      [⟨"corto", 3, 10⟩] ∧
    (10 : ℚ) < Enhanced.minScoreThreshold := by
  refine ⟨?_, ?_⟩ <;> decide

/-- C6 (amended): in the `searchForAnswers` variant every per-question
match list is sorted descending by score, has at most
`chunksPerQuestion` (2) entries, every entry's score reaches the
configured `minScoreThreshold` (30), and when no chunk reaches the
threshold the match list is empty (a valid outcome, and cache hits
short-circuit with an empty list as well); `searchWithIndex` of
`analyze-enhanced.js` also returns a descending list of at most 10
entries, but applies no score threshold at all, so entries below the
configured `minScoreThreshold` (20) can be returned. -/
theorem c6_amended_lexical_retriever (cache : Question → Option Opt.Cached)
    (questions : List Question) (chunks : List Opt.Chunk)
    (keywords : List String) (index : List (String × List Nat))
    (chunksE : List Enhanced.ChunkE) :
    (∀ res ∈ Opt.searchForAnswers cache questions chunks,
      List.Sorted (byScoreDesc Opt.MatchL.score) res.matches' ∧
      res.matches'.length ≤ Opt.chunksPerQuestion ∧
      (∀ m ∈ res.matches', Opt.minScoreThreshold ≤ m.score) ∧
      ((∀ c ∈ chunks,
          Opt.scoreChunk (Opt.extractKeywordsFromQuestion res.question) res.question c <
            Opt.minScoreThreshold) →
        res.matches' = [])) ∧
    (List.Sorted (byScoreDesc Enhanced.ScoredChunk.score)
      (Enhanced.searchWithIndex keywords index chunksE) ∧
     (Enhanced.searchWithIndex keywords index chunksE).length ≤ 10) := by
  constructor
  · intro res hres
    unfold Opt.searchForAnswers at hres
    rw [List.mem_map] at hres
    obtain ⟨q, _, hq⟩ := hres
    revert hq
    cases cache q with
    | some cached =>
      intro hq
      cases hq
      exact ⟨List.sorted_nil, by simp, by simp, fun _ => rfl⟩
    | none =>
      intro hq
      cases hq
      exact questionMatches_props q chunks
  · constructor
    · simp only [Enhanced.searchWithIndex]
      unfold List.Sorted
      rw [List.pairwise_map]
      have hs := List.sorted_insertionSort (byScoreDesc (Prod.snd : Nat × ℚ → ℚ))
      exact (sorted_take 10 (hs _)).imp (fun hab => hab)
    · simp only [Enhanced.searchWithIndex]
      rw [List.length_map]
      exact List.length_take_le _ _

/-- Witness for C6 (amended): the scenario corpus of the specification,
a single chunk matched above threshold for the single question. -/
theorem c6_amended_witness :
    ∀ res ∈ Opt.searchForAnswers (fun _ => none)
      [⟨1, "Cosa descrive il comportamentismo?",
        [('A', "Una teoria genetica"),
         ('B', "Si concentra sui comportamenti osservabili")]⟩]
      [⟨"Il comportamentismo si concentra sui comportamenti osservabili.", 1⟩],
      List.Sorted (byScoreDesc Opt.MatchL.score) res.matches' ∧
      res.matches'.length ≤ Opt.chunksPerQuestion ∧
      (∀ m ∈ res.matches', Opt.minScoreThreshold ≤ m.score) ∧
      ((∀ c ∈ [(⟨"Il comportamentismo si concentra sui comportamenti osservabili.", 1⟩ : Opt.Chunk)],
          Opt.scoreChunk (Opt.extractKeywordsFromQuestion res.question) res.question c <
            Opt.minScoreThreshold) →
        res.matches' = []) :=
  (c6_amended_lexical_retriever (fun _ => none) _ _ [] [] []).1

/-! ## C7 -/

theorem enhanceAt_getElem?_ne (s : List Enhanced.RResultE) (idx j : Nat)
    (h : j ≠ idx) : (Enhanced.enhanceAt s idx)[j]? = s[j]? := by
  simp only [Enhanced.enhanceAt]
  split
  · split
    · rfl
    · exact List.getElem?_set_ne (Ne.symm h)
  · rfl

theorem enhanceAt_of_nonempty (s : List Enhanced.RResultE) (idx : Nat)
    {r : Enhanced.RResultE} (hs : s[idx]? = some r) (hr : r.matches' ≠ []) :
    Enhanced.enhanceAt s idx = s := by
  unfold Enhanced.enhanceAt
  have hget : s.getD idx default = r := by
    rw [List.getD_eq_getElem?_getD, hs]
    rfl
  rw [hget, if_neg]
  rw [List.length_eq_zero]
  exact hr

theorem enhance_fold_preserves {r : Enhanced.RResultE} (hr : r.matches' ≠ [])
    (i : Nat) :
    ∀ (l : List Nat) (s : List Enhanced.RResultE), s[i]? = some r →
      (l.foldl Enhanced.enhanceAt s)[i]? = some r := by
  intro l
  induction l with
  | nil => intro s hs; exact hs
  | cons j t ih =>
    intro s hs
    apply ih
    by_cases hj : j = i
    · subst hj
      rw [enhanceAt_of_nonempty s j hs hr]
      exact hs
    · rw [enhanceAt_getElem?_ne s j i (Ne.symm hj)]
      exact hs

/-- C7: `enhanceWithNearbyContext` leaves every result that already has
a non-empty match list unchanged (first conjunct, across the whole
left-to-right in-place pass); a single processing step changes no entry
other than the one at its own index (third conjunct); and when the
entry at the processed index does change, the new entry is tagged
`inferredFromContext = true`, carries at most 2 matches, and each of
those matches is the head match of a result of the current batch state
at index distance at most 2 (fourth conjunct, with `contextWindow = 2`). -/
theorem c7_enhance_frame_properties (questions : List Question)
    (arr s : List Enhanced.RResultE) (idx i : Nat) (r : Enhanced.RResultE) :
    (arr[i]? = some r → r.matches' ≠ [] →
      (Enhanced.enhanceWithNearbyContext questions arr)[i]? = some r) ∧
    (s[idx]? = some r → r.matches' ≠ [] → Enhanced.enhanceAt s idx = s) ∧
    (∀ j, j ≠ idx → (Enhanced.enhanceAt s idx)[j]? = s[j]?) ∧
    ((Enhanced.enhanceAt s idx)[idx]? = some r → Enhanced.enhanceAt s idx ≠ s →
      r.inferredFromContext = true ∧ r.matches'.length ≤ 2 ∧
      ∀ m ∈ r.matches', ∃ j, j < s.length ∧ j ≠ idx ∧
        idx ≤ j + Enhanced.contextWindow ∧ j ≤ idx + Enhanced.contextWindow ∧
        m ∈ (s.getD j default).matches'.take 1) := by
  refine ⟨?_, fun hs hr => enhanceAt_of_nonempty s idx hs hr,
    fun j hj => enhanceAt_getElem?_ne s idx j hj, ?_⟩
  · intro hi hr
    exact enhance_fold_preserves hr i _ arr hi
  · intro hchanged hne
    revert hchanged hne
    simp only [Enhanced.enhanceAt]
    split
    · split
      · intro _ hne
        exact absurd rfl hne
      · next hnear =>
        intro hchanged hne
        by_cases hlen : idx < s.length
        · rw [List.getElem?_set_self hlen] at hchanged
          obtain rfl : (⟨(s.getD idx default).question,
              (List.insertionSort (byScoreDesc Enhanced.MatchE.score)
                (Enhanced.nearbyMatchesOf s idx)).take 2, true⟩ :
              Enhanced.RResultE) = r := by
            injection hchanged
          refine ⟨rfl, List.length_take_le _ _, ?_⟩
          intro m hm
          have hm2 : m ∈ Enhanced.nearbyMatchesOf s idx := by
            have := (List.take_sublist 2 _).subset hm
            rw [List.mem_insertionSort] at this
            exact this
          unfold Enhanced.nearbyMatchesOf at hm2
          rw [List.mem_flatMap] at hm2
          obtain ⟨j, hjw, hjm⟩ := hm2
          unfold Enhanced.windowIdxs at hjw
          rw [List.mem_filter, List.mem_range] at hjw
          obtain ⟨hjlen, hcond⟩ := hjw
          simp only [Bool.and_eq_true, decide_eq_true_eq] at hcond
          exact ⟨j, hjlen, hcond.1.1, hcond.1.2, hcond.2, hjm⟩
        · exact absurd (List.set_eq_of_length_le (Nat.le_of_not_lt hlen)) hne
    · intro _ hne
      exact absurd rfl hne

/-- Witness for C7: a one-element batch with a direct match is returned
unchanged by the enhancement pass. -/
theorem c7_witness :
    (Enhanced.enhanceWithNearbyContext []
      [⟨⟨1, "d1", []⟩, [⟨⟨"t1", 1, 40⟩, "estratto", 40, 1⟩], false⟩])[0]? =
      some ⟨⟨1, "d1", []⟩, [⟨⟨"t1", 1, 40⟩, "estratto", 40, 1⟩], false⟩ :=
  (c7_enhance_frame_properties [] _ [] 0 0 _).1 rfl (List.cons_ne_nil _ _)

/-- Witness for C5 (amended). -/
theorem c5_amended_witness :
    Rag.analyzeQuestionWithRAG
      ⟨1, "q", [('A', "tutte le precedenti"), ('B', "x")]⟩ "" (.ok (some "??")) false = 'D' ∧
    Rag.analyzeQuestionWithRAG
      ⟨1, "q", [('A', "tutte le precedenti"), ('B', "x")]⟩ "" .throws false = 'B' :=
  c5_amended_marker_phrase
    ⟨1, "q", [('A', "tutte le precedenti"), ('B', "x")]⟩ "" "??" false
    (by decide) (by decide) (Or.inl (by decide))

/-! ## C8 -/

/-- C8: the assembled context never exceeds the configured character
budget — every per-chunk extraction of `extractImportantSentences` is at
most 250 characters (on both of its branches), and the per-batch
compressed context assembled by the handler is at most 2000 characters,
for all inputs. -/
theorem c8_context_character_budget (text : String) (q : Question)
    (idfScores : String → ℚ) (searchResults : List Enhanced.RResultE) :
    (Enhanced.extractImportantSentences text q idfScores 250).length ≤ 250 ∧
    (Enhanced.contextPerQuestion searchResults).length ≤ 2000 := by
  constructor
  · simp only [Enhanced.extractImportantSentences]
    split
    · exact jsSubstring_length_le _ _
    · exact jsSubstring_length_le _ _
  · exact jsSubstring_length_le _ _

/-! ## C9 -/

/-- C9: the lexical retrieval pipeline is a deterministic function of
the corpus, the inverted index, the IDF table and the question list —
the embedding of `optimizedSearch` is pure (it reads no mutable state
and draws no randomness), so two sequential retrievals with no corpus
mutation in between produce identical ranked result lists. -/
theorem c9_optimizedSearch_deterministic (questions : List Question)
    (chunks : List Enhanced.ChunkE) (searchIndex : List (String × List Nat))
    (idfScores : String → ℚ) :
    (Enhanced.optimizedSearch questions chunks searchIndex idfScores,
     Enhanced.optimizedSearch questions chunks searchIndex idfScores).1 =
    (Enhanced.optimizedSearch questions chunks searchIndex idfScores,
     Enhanced.optimizedSearch questions chunks searchIndex idfScores).2 := rfl

/-! ## C10 -/

theorem callLoop_all_429 (fetchSeq : Nat → Retry.FetchOutcome)
    (maxRetries : Nat)
    (h : ∀ j, j < maxRetries → fetchSeq j = .resp 429) :
    ∀ k i, maxRetries - i ≤ k → Retry.callLoop fetchSeq maxRetries i = none := by
  intro k
  induction k with
  | zero =>
    intro i hi
    unfold Retry.callLoop
    rw [dif_neg (by omega)]
  | succ k ih =>
    intro i hi
    unfold Retry.callLoop
    by_cases hlt : i < maxRetries
    · rw [dif_pos hlt, h i hlt]
      simp only [if_pos rfl]
      exact ih (i + 1) (by omega)
    · rw [dif_neg hlt]

theorem callLoop_throws_last (fetchSeq : Nat → Retry.FetchOutcome)
    (maxRetries : Nat)
    (hpre : ∀ j, j < maxRetries - 1 → fetchSeq j = .resp 429 ∨ fetchSeq j = .throws)
    (hlast : fetchSeq (maxRetries - 1) = .throws) :
    ∀ k i, i < maxRetries → maxRetries - i ≤ k →
      Retry.callLoop fetchSeq maxRetries i = some (.error ()) := by
  intro k
  induction k with
  | zero => intro i hi hk; omega
  | succ k ih =>
    intro i hi hk
    unfold Retry.callLoop
    rw [dif_pos hi]
    by_cases hil : i = maxRetries - 1
    · subst hil
      rw [hlast, if_pos rfl]
    · have hi2 : i < maxRetries - 1 := by omega
      rcases hpre i hi2 with hresp | hthrow
      · rw [hresp]
        simp only [if_pos rfl]
        exact ih (i + 1) (by omega) (by omega)
      · rw [hthrow]
        simp only [if_neg hil]
        exact ih (i + 1) (by omega) (by omega)

/-- C10: when every one of the `maxRetries` attempts receives an HTTP
429 response, `callClaudeWithRetry` falls off the end of its loop and
resolves with `undefined` (`none`) — neither a response object nor a
thrown error; and when a non-429 error (a rejected fetch) occurs, the
error is rethrown only on the final attempt: with every earlier attempt
either 429 or a rejection and the final attempt a rejection, the result
is the rethrown error (`some (.error ())`). -/
theorem c10_retry_exhaustion_undefined (fetchSeq : Nat → Retry.FetchOutcome)
    (maxRetries : Nat) :
    ((∀ i, i < maxRetries → fetchSeq i = .resp 429) →
      Retry.callClaudeWithRetry fetchSeq maxRetries = none) ∧
    (0 < maxRetries →
     (∀ j, j < maxRetries - 1 → fetchSeq j = .resp 429 ∨ fetchSeq j = .throws) →
     fetchSeq (maxRetries - 1) = .throws →
      Retry.callClaudeWithRetry fetchSeq maxRetries = some (.error ())) := by
  constructor
  · intro h
    exact callLoop_all_429 fetchSeq maxRetries h maxRetries 0 (by omega)
  · intro hpos hpre hlast
    exact callLoop_throws_last fetchSeq maxRetries hpre hlast maxRetries 0
      hpos (by omega)

/-- Witness for C10: three consecutive 429 responses resolve with
`undefined`; three consecutive rejections rethrow on the third
attempt. -/
theorem c10_witness :
    Retry.callClaudeWithRetry (fun _ => .resp 429) 3 = none ∧
    Retry.callClaudeWithRetry (fun _ => .throws) 3 = some (.error ()) :=
  ⟨(c10_retry_exhaustion_undefined (fun _ => .resp 429) 3).1 (fun _ _ => rfl),
   (c10_retry_exhaustion_undefined (fun _ => .throws) 3).2 (by omega)
     (fun _ _ => Or.inr rfl) rfl⟩

end Quiz
